/-
Verification of the trading strategy in `src/trading/Kwokker_Algorithm3.py`
(class `Strategy`), a single-instrument decision engine driven by order-book,
account and game events.

The Python code works on floats; we embed it over the real numbers, with
`Real.exp`, `Real.tanh`, `Real.sqrt` for `math.exp` / `math.tanh` /
`math.sqrt` and `Int.floor` for `math.floor`.  The mutable `Strategy` object
becomes an explicit `State` record; the platform collaborators
(`place_market_order`, `place_limit_order`, `cancel_order`) become an emitted
command list, and the order id synchronously returned by `place_limit_order`
becomes an explicit `oid` parameter.  `time.monotonic()` becomes an explicit
`now` parameter (`self._start` is the `start` field of the state).
-/
import Mathlib

open scoped Classical

noncomputable section

/-- `Side` enum of the source (BUY = 0, SELL = 1). -/
inductive Side where
  | BUY
  | SELL
  deriving DecidableEq

/-- `Ticker` enum of the source; it has the single member `TEAM_A`. -/
inductive Ticker where
  | TEAM_A
  deriving DecidableEq

/-- Outbound commands to the platform collaborator: `place_market_order`,
`place_limit_order` (with its ioc flag) and `cancel_order`.  The `ticker`
argument is omitted because `Ticker` has a single value. -/
inductive Cmd where
  | placeMarket (side : Side) (qty : ℝ)
  | placeLimit (side : Side) (qty : ℝ) (price : ℝ) (ioc : Bool)
  | cancel (orderId : ℤ)
  deriving DecidableEq

/-- The mutable fields of the `Strategy` object.  The two Python dicts
`_bids` / `_asks` (price → qty) are association lists with distinct keys. -/
structure State where
  bids : List (ℝ × ℝ)
  asks : List (ℝ × ℝ)
  capital : ℝ
  pos : ℝ
  t : ℝ
  home : ℤ
  away : ℤ
  lead : ℝ
  momentum : ℝ
  seenEvent : Bool
  start : ℝ
  workBid : Option ℤ
  workAsk : Option ℤ

namespace Strategy

-- ---- Tunables (class constants of `Strategy`) ----
def MAX_POS : ℝ := 800.0
def RISK_PCT : ℝ := 0.007
def MAX_SPREAD_TO_CROSS : ℝ := 2.0
def PASSIVE_IMPROVE : ℝ := 0.1
def MIN_QTY_LVL : ℝ := 1.0
def HOME_ADV : ℝ := 1.0
def BASE_EDGE : ℝ := 0.9
def INIT_COOLDOWN : ℝ := 3.0
def CLOSE_OUT_BUFFER : ℝ := 2.0
def GAME_LEN1 : ℝ := 2400.0
def GAME_LEN2 : ℝ := 2880.0

/-- `Strategy.reset_state`: the freshly reset state (`self._start` is set to
the current wall clock `now`). -/
def resetState (now : ℝ) : State :=
  { bids := [], asks := [], capital := 100000.0, pos := 0.0, t := GAME_LEN2,
    home := 0, away := 0, lead := 0.0, momentum := 0.0, seenEvent := false,
    start := now, workBid := none, workAsk := none }

/-- `Strategy._clamp_price`. -/
def clampPrice (p : ℝ) : ℝ := min 100.0 (max 0.0 p)

/-- `Strategy._sigmoid`. -/
def sigmoid (x : ℝ) : ℝ := 1.0 / (1.0 + Real.exp (-x))

/-- Best qualifying bid: the highest price whose quantity is at least
`MIN_QTY_LVL` (what the sorted-descending loop of `Strategy._best_bid`
returns on a dict, whose keys are distinct). -/
def bestBid : List (ℝ × ℝ) → Option ℝ
  | [] => none
  | (p, q) :: rest =>
    match bestBid rest with
    | none => if MIN_QTY_LVL ≤ q then some p else none
    | some m => if MIN_QTY_LVL ≤ q then some (max p m) else some m

/-- Best qualifying ask: the lowest price whose quantity is at least
`MIN_QTY_LVL` (the sorted-ascending loop of `Strategy._best_ask`). -/
def bestAsk : List (ℝ × ℝ) → Option ℝ
  | [] => none
  | (p, q) :: rest =>
    match bestAsk rest with
    | none => if MIN_QTY_LVL ≤ q then some p else none
    | some m => if MIN_QTY_LVL ≤ q then some (min p m) else some m

/-- `Strategy._edge_threshold`: base threshold tightened late via tanh. -/
def edgeThreshold (t : ℝ) : ℝ :=
  max 0.2 (BASE_EDGE * (1.0 - 0.55 * (1.0 - Real.tanh (max t 0.0 / 600.0))))

/-- `Strategy._win_prob` as a function of the game-state fields it reads. -/
def winProb (t lead momentum : ℝ) : ℝ :=
  let tc := max t 0.0
  let scale := 1.0 / Real.sqrt (tc / 60.0 + 1.0)
  let xlead := lead * scale
  let xhome := HOME_ADV * scale
  let xmom := momentum * (1.0 + (1.0 - Real.tanh (tc / 600.0)))
  let logit := 0.18 * xlead + 0.20 * xhome + 0.10 * xmom
  max 0.01 (min 0.99 (sigmoid logit))

/-- `Strategy._fair`. -/
def fair (t lead momentum : ℝ) : ℝ := 100.0 * winProb t lead momentum

/-- The `|edge|`-dependent factor of `Strategy._size_for_edge`:
`0.5 + min(1.5, abs(edge) / 2.0)`. -/
def edgeFactor (e : ℝ) : ℝ := 0.5 + min 1.5 (|e| / 2.0)

/-- The time-urgency factor of `Strategy._size_for_edge`:
`1.0 + (1.0 - tanh(max(t, 0) / 800.0))`. -/
def urgency (t : ℝ) : ℝ := 1.0 + (1.0 - Real.tanh (max t 0.0 / 800.0))

/-- `Strategy._size_for_edge` (reads `self.capital` and `self.t`). -/
def sizeForEdge (capital t e refPrice : ℝ) : ℝ :=
  if refPrice ≤ 0.0 then 0.0
  else
    let budget := capital * RISK_PCT
    let base := max 1.0 (budget / max 1.0 refPrice)
    let sz := base * edgeFactor e * urgency t
    max 0.0 ((Int.floor (min sz (MAX_POS * 0.25)) : ℤ) : ℝ)

/-- `Strategy._cancel_working`: cancel any working orders (bid first, then
ask) and clear both handles. -/
def cancelWorking (s : State) : State × List Cmd :=
  match s.workBid, s.workAsk with
  | none, none => (s, [])
  | some b, none => ({ s with workBid := none }, [Cmd.cancel b])
  | none, some a => ({ s with workAsk := none }, [Cmd.cancel a])
  | some b, some a =>
    ({ s with workBid := none, workAsk := none }, [Cmd.cancel b, Cmd.cancel a])

/-- `Strategy._flatten_all`: cancel working orders, then close any position of
magnitude at least one with a market order. -/
def flattenAll (s : State) : State × List Cmd :=
  if 1.0 ≤ |s.pos| then
    if 0.0 < s.pos then
      ((cancelWorking s).1,
        (cancelWorking s).2 ++ [Cmd.placeMarket Side.SELL ((Int.floor s.pos : ℤ) : ℝ)])
    else
      ((cancelWorking s).1,
        (cancelWorking s).2 ++ [Cmd.placeMarket Side.BUY ((Int.floor (-s.pos) : ℤ) : ℝ)])
  else ((cancelWorking s).1, (cancelWorking s).2)

/-- The body of `Strategy._try_trade` after the cooldown and the
best-bid/best-ask existence checks have passed (`bb`, `aa` are the best bid
and ask; `oid` is the order id that `place_limit_order` would return for the
passive placement of this evaluation; `highImpact` is the flag passed in). -/
def tryTradeGo (s : State) (oid : ℤ) (highImpact : Prop) (bb aa : ℝ) :
    State × List Cmd :=
  let md := 0.5 * (bb + aa)
  let spread := max 0.0 (aa - bb)
  let fv := fair s.t s.lead s.momentum
  let thr := edgeThreshold s.t
  let eBuy := fv - aa
  let eSell := bb - fv
  -- Late-game inventory safety
  if s.t < 60.0 ∧ 0.5 < s.pos ∧ fv < bb then
    (s, [Cmd.placeMarket Side.SELL ((Int.floor (max 1.0 (s.pos * 0.25)) : ℤ) : ℝ)])
  else if s.t < 60.0 ∧ s.pos < -0.5 ∧ aa < fv then
    (s, [Cmd.placeMarket Side.BUY ((Int.floor (max 1.0 (-s.pos * 0.25)) : ℤ) : ℝ)])
  else
    let allowCross := spread ≤ MAX_SPREAD_TO_CROSS ∨ highImpact
    let qBuy := min (sizeForEdge s.capital s.t eBuy md) (MAX_POS - s.pos)
    let qSell := min (sizeForEdge s.capital s.t eSell md) (s.pos + MAX_POS)
    -- Cross the spread (IOC) when edge is strong
    if allowCross ∧ thr < eBuy ∧ s.pos < MAX_POS ∧ 1.0 ≤ qBuy then
      ((cancelWorking s).1, (cancelWorking s).2 ++ [Cmd.placeLimit Side.BUY qBuy aa true])
    else if allowCross ∧ thr < eSell ∧ -MAX_POS < s.pos ∧ 1.0 ≤ qSell then
      ((cancelWorking s).1, (cancelWorking s).2 ++ [Cmd.placeLimit Side.SELL qSell bb true])
    -- Otherwise: maintain a single passive on the dominant side
    else if eSell < eBuy ∧ thr < eBuy ∧ s.pos < MAX_POS then
      if 1.0 ≤ qBuy then
        ({ s with workAsk := none,
                  workBid := if 0 ≤ oid then some oid else s.workBid },
          (match s.workBid with | some b => [Cmd.cancel b] | none => []) ++
          (match s.workAsk with | some a => [Cmd.cancel a] | none => []) ++
          [Cmd.placeLimit Side.BUY qBuy (clampPrice (bb + PASSIVE_IMPROVE)) false])
      else (s, [])
    else if thr < eSell ∧ -MAX_POS < s.pos then
      if 1.0 ≤ qSell then
        ({ s with workBid := none,
                  workAsk := if 0 ≤ oid then some oid else s.workAsk },
          (match s.workAsk with | some a => [Cmd.cancel a] | none => []) ++
          (match s.workBid with | some b => [Cmd.cancel b] | none => []) ++
          [Cmd.placeLimit Side.SELL qSell (clampPrice (aa - PASSIVE_IMPROVE)) false])
      else (s, [])
    else ((cancelWorking s).1, (cancelWorking s).2)

/-- `Strategy._try_trade`: no-op during the post-reset cooldown or on a
one-sided/empty book, otherwise `tryTradeGo`. -/
def tryTrade (s : State) (now : ℝ) (oid : ℤ) (highImpact : Prop) :
    State × List Cmd :=
  if now - s.start < INIT_COOLDOWN then (s, [])
  else
    match bestBid s.bids, bestAsk s.asks with
    | some bb, some aa => tryTradeGo s oid highImpact bb aa
    | _, _ => (s, [])

/-- Upsert of a price level in a dict (`self._bids[price] = quantity`). -/
def bookSet (b : List (ℝ × ℝ)) (p q : ℝ) : List (ℝ × ℝ) :=
  (p, q) :: b.filter (fun x => x.1 ≠ p)

/-- Deletion of a price level (`self._bids.pop(price, None)`). -/
def bookDel (b : List (ℝ × ℝ)) (p : ℝ) : List (ℝ × ℝ) :=
  b.filter (fun x => x.1 ≠ p)

/-- `Strategy.on_trade_update`: the body is `pass` — no state change, and no
re-evaluation of `_try_trade`. -/
def onTradeUpdate (s : State) (_ticker : Ticker) (_side : Side)
    (_quantity _price : ℝ) (_now : ℝ) (_oid : ℤ) : State × List Cmd :=
  (s, [])

/-- The book mutation performed by `Strategy.on_orderbook_update`. -/
def applyBookUpdate (s : State) (side : Side) (quantity price : ℝ) : State :=
  let p := clampPrice price
  match side with
  | Side.BUY =>
    if quantity ≤ 0.0 then { s with bids := bookDel s.bids p }
    else { s with bids := bookSet s.bids p quantity }
  | Side.SELL =>
    if quantity ≤ 0.0 then { s with asks := bookDel s.asks p }
    else { s with asks := bookSet s.asks p quantity }

/-- `Strategy.on_orderbook_update`: update the book, then `_try_trade(False)`. -/
def onOrderbookUpdate (s : State) (ticker : Ticker) (side : Side)
    (quantity price : ℝ) (now : ℝ) (oid : ℤ) : State × List Cmd :=
  match ticker with
  | Ticker.TEAM_A => tryTrade (applyBookUpdate s side quantity price) now oid False

/-- The wholesale book replacement of `Strategy.on_orderbook_snapshot`
(levels with quantity below `MIN_QTY_LVL` are dropped; a repeated price
overwrites, as in a dict). -/
def applySnapshot (s : State) (bids asks : List (ℝ × ℝ)) : State :=
  { s with
    bids := bids.foldl
      (fun b pq => if MIN_QTY_LVL ≤ pq.2 then bookSet b (clampPrice pq.1) pq.2 else b) [],
    asks := asks.foldl
      (fun b pq => if MIN_QTY_LVL ≤ pq.2 then bookSet b (clampPrice pq.1) pq.2 else b) [] }

/-- `Strategy.on_orderbook_snapshot`: rebuild both sides, then
`_try_trade(False)`. -/
def onOrderbookSnapshot (s : State) (ticker : Ticker)
    (bids asks : List (ℝ × ℝ)) (now : ℝ) (oid : ℤ) : State × List Cmd :=
  match ticker with
  | Ticker.TEAM_A => tryTrade (applySnapshot s bids asks) now oid False

/-- `Strategy.on_account_update`: record capital, apply the signed fill to the
position, then clear the same-side working handle (with an explicit cancel)
when the position has gone strictly positive (bid handle) or strictly
negative (ask handle).  `_try_trade` is not called. -/
def onAccountUpdate (s : State) (_ticker : Ticker) (side : Side)
    (_price quantity capitalRemaining : ℝ) : State × List Cmd :=
  let s1 := { s with capital := capitalRemaining,
                     pos := s.pos + (if side = Side.BUY then quantity else -quantity) }
  let bidPart : Option ℤ × List Cmd :=
    if 0.0 < s1.pos then
      match s1.workBid with
      | some b => (none, [Cmd.cancel b])
      | none => (none, [])
    else (s1.workBid, [])
  let askPart : Option ℤ × List Cmd :=
    if s1.pos < 0.0 then
      match s1.workAsk with
      | some a => (none, [Cmd.cancel a])
      | none => (none, [])
    else (s1.workAsk, [])
  ({ s1 with workBid := bidPart.1, workAsk := askPart.1 },
    bidPart.2 ++ askPart.2)

/-- The time-format inference at the top of `Strategy.on_game_event_update`:
two sequential (not exclusive) conditional assignments. -/
def timeUpdate (cur ts : ℝ) : ℝ :=
  let s1 := if ts ≤ GAME_LEN1 + 1.0 then ts else cur
  if ts ≤ GAME_LEN2 + 1.0 then max s1 ts else s1

/-- The state mutation of `Strategy.on_game_event_update` before the hard
exits: time inference, scores, lead, momentum EMA. -/
def updGame (s : State) (homeScore awayScore : ℤ) (timeSeconds : Option ℝ) :
    State :=
  let s1 :=
    match timeSeconds with
    | none => s
    | some ts => { s with t := timeUpdate s.t ts }
  let newLead : ℝ := ((homeScore - awayScore : ℤ) : ℝ)
  if s1.seenEvent then
    { s1 with home := homeScore, away := awayScore, lead := newLead,
              momentum := (1.0 - 0.2) * s1.momentum + 0.2 * (newLead - s1.lead) }
  else
    { s1 with home := homeScore, away := awayScore, lead := newLead,
              momentum := 0.0, seenEvent := true }

/-- The high-impact detector of `Strategy.on_game_event_update`. -/
def highImpactOf (eventType : String) (shotType : Option String) (t : ℝ) :
    Prop :=
  (eventType = "SCORE" ∧ (shotType = some "THREE_POINT" ∨ t < 30.0)) ∨
    ((eventType = "TURNOVER" ∨ eventType = "STEAL" ∨ eventType = "FOUL") ∧
      t < 45.0)

/-- `Strategy.on_game_event_update`.  Parameters the handler never reads
(`home_away`, player/assist/rebound descriptors, coordinates) are omitted. -/
def onGameEventUpdate (s : State) (eventType : String)
    (homeScore awayScore : ℤ) (shotType : Option String)
    (timeSeconds : Option ℝ) (now : ℝ) (oid : ℤ) : State × List Cmd :=
  let s3 := updGame s homeScore awayScore timeSeconds
  if eventType = "END_GAME" then
    (resetState now, (flattenAll s3).2)
  else if s3.t ≤ CLOSE_OUT_BUFFER then
    ((flattenAll s3).1, (flattenAll s3).2)
  else
    tryTrade s3 now oid (highImpactOf eventType shotType s3.t)

/-- The time-inference rule as the spec words it (claim C3): a reported time
plausible for the longer format yields the maximum of the current stored time
and the reported time, and this longer-format interpretation also wins when
both formats are plausible.  ("Current" is the stored time before the event.) -/
def timeUpdateSpec (cur ts : ℝ) : ℝ :=
  if ts ≤ GAME_LEN2 + 1.0 then max cur ts else cur

/-- The edge factor as the spec words it (claim C2): proportional to `|e|`
within `[0.5, 2.0]`, reaching its saturation value 2.0 exactly at `|e| = 2.0`
price points. -/
def edgeFactorSpec (e : ℝ) : ℝ := max 0.5 (min 2.0 |e|)

/-- The sizing rule as the spec words it (claim C2): zero on a non-positive
reference price, else the whole-unit floor of `min(cap, base * f * u)` with
`base = capital * 0.007 / p` (no clamping), `f = edgeFactorSpec`, `u` the
tanh urgency schedule, `cap = 25%` of the absolute position limit. -/
def sizeForEdgeSpec (capital t e refPrice : ℝ) : ℝ :=
  if refPrice ≤ 0.0 then 0.0
  else
    ((Int.floor (min (MAX_POS * 0.25)
      (capital * RISK_PCT / refPrice * edgeFactorSpec e * urgency t)) : ℤ) : ℝ)

/-- A concrete post-cooldown state: best bid 40, best ask 42, flat position,
game clock at zero, no working orders.  Used to exercise the decision
engine on concrete inputs. -/
def demoState : State :=
  { bids := [(40.0, 5.0)], asks := [(42.0, 5.0)], capital := 100000.0,
    pos := 0.0, t := 0.0, home := 0, away := 0, lead := 0.0, momentum := 0.0,
    seenEvent := true, start := 0.0, workBid := none, workAsk := none }

/-- Like `demoState` but with an empty bid side (one book delta away from
`demoState`). -/
def demoState0 : State :=
  { demoState with bids := [] }

/-- A flat-position state with both working-order handles set (ids 5 and 7),
used to exercise the fill-reconciliation of `on_account_update`. -/
def cState : State :=
  { bids := [], asks := [], capital := 100000.0, pos := 0.0, t := 600.0,
    home := 0, away := 0, lead := 0.0, momentum := 0.0, seenEvent := true,
    start := 0.0, workBid := some 5, workAsk := some 7 }

/-- A sub-unit long position with no working orders, used to exercise
`_flatten_all` on a dust position. -/
def wState : State :=
  { bids := [], asks := [], capital := 100000.0, pos := 0.5, t := 600.0,
    home := 0, away := 0, lead := 0.0, momentum := 0.0, seenEvent := true,
    start := 0.0, workBid := none, workAsk := none }

/-- A wide-spread book (best bid 30 / best ask 40, spread 10 above the cross
ceiling) with a flat position and clock 0, used to exercise the
passive-resting branch of the decision engine. -/
def pState : State :=
  { bids := [(30.0, 5.0)], asks := [(40.0, 5.0)], capital := 100000.0,
    pos := 0.0, t := 0.0, home := 0, away := 0, lead := 0.0, momentum := 0.0,
    seenEvent := true, start := 0.0, workBid := none, workAsk := none }

/-- A long position of 5 with a working bid (id 3) and game clock at 100,
used to exercise the close-out path of `on_game_event_update`. -/
def fState : State :=
  { bids := [(40.0, 5.0)], asks := [(42.0, 5.0)], capital := 2000.0,
    pos := 5.0, t := 100.0, home := 10, away := 8, lead := 2.0,
    momentum := 0.0, seenEvent := true, start := 0.0, workBid := some 3,
    workAsk := none }

end Strategy

namespace Strategy

/-! ### Helper lemmas about the transcendental pieces -/

/-- Algebraic form of `tanh`: `tanh x = 1 - 2 / (exp (2x) + 1)`. -/
lemma tanh_repr (x : ℝ) :
    Real.tanh x = 1 - 2 / (Real.exp (2 * x) + 1) := by
  have hx : (0:ℝ) < Real.exp x := Real.exp_pos x
  rw [Real.tanh_eq_sinh_div_cosh, Real.sinh_eq, Real.cosh_eq, Real.exp_neg,
    two_mul, Real.exp_add]
  have h1 : Real.exp x + (Real.exp x)⁻¹ ≠ 0 := by positivity
  have h2 : Real.exp x * Real.exp x + 1 ≠ 0 := by positivity
  field_simp
  ring

/-- `tanh` is monotone. -/
lemma tanh_mono {x y : ℝ} (h : x ≤ y) : Real.tanh x ≤ Real.tanh y := by
  rw [tanh_repr, tanh_repr]
  have hx : (0:ℝ) < Real.exp (2 * x) + 1 := by positivity
  have hy : (0:ℝ) < Real.exp (2 * y) + 1 := by positivity
  have hle : Real.exp (2 * x) + 1 ≤ Real.exp (2 * y) + 1 := by
    have := Real.exp_le_exp.mpr (by linarith : 2 * x ≤ 2 * y)
    linarith
  have := div_le_div_of_nonneg_left (by norm_num : (0:ℝ) ≤ 2) hx hle
  linarith

/-- `tanh x < 1`. -/
lemma tanh_lt_one (x : ℝ) : Real.tanh x < 1 := by
  rw [tanh_repr]
  have hx : (0:ℝ) < Real.exp (2 * x) + 1 := by positivity
  have : 0 < 2 / (Real.exp (2 * x) + 1) := by positivity
  linarith

/-- `0 ≤ tanh x` for `0 ≤ x`. -/
lemma tanh_nonneg {x : ℝ} (h : 0 ≤ x) : 0 ≤ Real.tanh x := by
  have := tanh_mono h
  rwa [Real.tanh_zero] at this

/-- `sigmoid` is monotone. -/
lemma sigmoid_mono {x y : ℝ} (h : x ≤ y) : sigmoid x ≤ sigmoid y := by
  unfold sigmoid
  have hx : (0:ℝ) < 1 + Real.exp (-x) := by positivity
  have hy : (0:ℝ) < 1 + Real.exp (-y) := by positivity
  have hle : 1 + Real.exp (-y) ≤ 1 + Real.exp (-x) := by
    have := Real.exp_le_exp.mpr (by linarith : -y ≤ -x)
    linarith
  have h' := div_le_div_of_nonneg_left (by norm_num : (0:ℝ) ≤ 1) hy hle
  norm_num at h' ⊢
  exact h'

/-- `sigmoid` is strictly positive. -/
lemma sigmoid_pos (x : ℝ) : 0 < sigmoid x := by
  unfold sigmoid
  positivity

/-! ### Numeric evaluation at the demo inputs -/

lemma exp02_lt_one : Real.exp (-(0.2:ℝ)) < 1 :=
  Real.exp_lt_one_iff.mpr (by norm_num)

lemma exp02_ge : (0.8:ℝ) ≤ Real.exp (-(0.2:ℝ)) := by
  have := Real.add_one_le_exp (-(0.2:ℝ))
  linarith

lemma sig02_lo : (0.45:ℝ) ≤ sigmoid 0.2 := by
  unfold sigmoid
  have hE1 := exp02_lt_one
  have hpos : (0:ℝ) < 1.0 + Real.exp (-(0.2:ℝ)) := by positivity
  rw [le_div_iff hpos]
  nlinarith

lemma sig02_hi : sigmoid 0.2 ≤ 0.56 := by
  unfold sigmoid
  have hE2 := exp02_ge
  have hpos : (0:ℝ) < 1.0 + Real.exp (-(0.2:ℝ)) := by positivity
  rw [div_le_iff hpos]
  nlinarith

lemma winProb000 : winProb 0.0 0.0 0.0 = max 0.01 (min 0.99 (sigmoid 0.2)) := by
  unfold winProb
  rw [max_self]
  norm_num [Real.sqrt_one, HOME_ADV]

lemma fair000_lb : (45:ℝ) ≤ fair 0.0 0.0 0.0 := by
  unfold fair
  rw [winProb000, min_eq_right (le_trans sig02_hi (by norm_num)),
    max_eq_right (le_trans (by norm_num) sig02_lo)]
  nlinarith [sig02_lo]

lemma fair000_ub : fair 0.0 0.0 0.0 ≤ 56 := by
  unfold fair
  rw [winProb000, min_eq_right (le_trans sig02_hi (by norm_num)),
    max_eq_right (le_trans (by norm_num) sig02_lo)]
  nlinarith [sig02_hi]

lemma edgeThreshold_zero : edgeThreshold 0.0 = 0.405 := by
  unfold edgeThreshold BASE_EDGE
  rw [max_self]
  norm_num [Real.tanh_zero]

lemma urgency_zero : urgency 0.0 = 2 := by
  unfold urgency
  rw [max_self]
  norm_num [Real.tanh_zero]

/-- `_size_for_edge` at the demo inputs: capital 100000, clock 0, reference
price 41, any edge of magnitude at least 3 (factor saturated). -/
lemma sizeForEdge_demo (e : ℝ) (he : 3 ≤ e) :
    sizeForEdge 100000.0 0.0 e 41.0 = 68.0 := by
  simp only [sizeForEdge, edgeFactor, RISK_PCT, MAX_POS]
  rw [if_neg (by norm_num)]
  rw [abs_of_pos (by linarith : (0:ℝ) < e)]
  rw [min_eq_left (by linarith : (1.5:ℝ) ≤ e / 2.0)]
  rw [urgency_zero]
  rw [max_eq_right (by norm_num : (1.0:ℝ) ≤ 100000.0 * 0.007 / max 1.0 41.0)]
  rw [max_eq_right (by norm_num : (1.0:ℝ) ≤ 41.0)]
  rw [min_eq_left (by norm_num : (100000.0 * 0.007 / 41.0 * (0.5 + 1.5) * 2 : ℝ) ≤ 800.0 * 0.25)]
  rw [show (100000.0 * 0.007 / 41.0 * (0.5 + 1.5) * 2 : ℝ) = 2800 / 41 by norm_num]
  rw [show (Int.floor ((2800:ℝ)/41) : ℤ) = 68 by
    rw [Int.floor_eq_iff] <;> norm_num]
  norm_num

/-- Every command emitted by `_cancel_working` is a cancel. -/
lemma cancelWorking_cmds (s : State) (c : Cmd) (h : c ∈ (cancelWorking s).2) :
    ∃ i, c = Cmd.cancel i := by
  unfold cancelWorking at h
  rcases hb : s.workBid with _ | b <;> rcases ha : s.workAsk with _ | a <;>
    rw [hb, ha] at h <;> simp at h
  · exact ⟨a, h⟩
  · exact ⟨b, h⟩
  · rcases h with h | h
    · exact ⟨b, h⟩
    · exact ⟨a, h⟩

lemma bestBid_demo : bestBid demoState.bids = some 40.0 := by
  simp only [demoState, bestBid]
  rw [if_pos (by norm_num [MIN_QTY_LVL])]

lemma bestAsk_demo : bestAsk demoState.asks = some 42.0 := by
  simp only [demoState, bestAsk]
  rw [if_pos (by norm_num [MIN_QTY_LVL])]

/-- The decision engine at `demoState`: with best bid 40 / best ask 42
(spread 2, at the cross ceiling), clock 0 and a flat book-keeping state, the
buy edge is far above the threshold, so the engine crosses the spread with an
immediate-or-cancel buy of 68 units at 42. -/
lemma tryTradeGo_demo :
    tryTradeGo demoState 0 False 40.0 42.0 =
      (demoState, [Cmd.placeLimit Side.BUY 68.0 42.0 true]) := by
  have hlb := fair000_lb
  have hq : min (sizeForEdge 100000.0 0.0 (fair 0.0 0.0 0.0 - 42.0)
      (0.5 * (40.0 + 42.0))) (MAX_POS - 0.0) = 68.0 := by
    rw [show (0.5 * (40.0 + 42.0) : ℝ) = 41.0 by norm_num]
    rw [sizeForEdge_demo _ (by linarith)]
    rw [min_eq_left (by norm_num [MAX_POS])]
  simp only [tryTradeGo, demoState]
  rw [if_neg (by rintro ⟨-, h, -⟩; norm_num at h)]
  rw [if_neg (by rintro ⟨-, h, -⟩; norm_num at h)]
  rw [if_pos ?hcross]
  case hcross =>
    refine ⟨Or.inl ?_, ?_, by norm_num [MAX_POS], ?_⟩
    · rw [max_le_iff]
      constructor <;> norm_num [MAX_SPREAD_TO_CROSS]
    · rw [edgeThreshold_zero]
      linarith
    · rw [hq]
      norm_num
  rw [hq]
  simp [cancelWorking, demoState]

/-- `_try_trade` at `demoState` (cooldown elapsed at `now = 10`, any
passive-order id irrelevant): one IOC buy command. -/
lemma tryTrade_demo :
    tryTrade demoState 10.0 0 False =
      (demoState, [Cmd.placeLimit Side.BUY 68.0 42.0 true]) := by
  unfold tryTrade
  rw [if_neg (by norm_num [demoState, INIT_COOLDOWN] : ¬(10.0 - demoState.start < INIT_COOLDOWN))]
  rw [bestBid_demo, bestAsk_demo]
  exact tryTradeGo_demo

/-! ### Field-preservation helpers -/

lemma cancelWorking_fields (s : State) :
    (cancelWorking s).1.pos = s.pos ∧ (cancelWorking s).1.capital = s.capital ∧
      (cancelWorking s).1.t = s.t ∧ (cancelWorking s).1.bids = s.bids ∧
      (cancelWorking s).1.asks = s.asks := by
  unfold cancelWorking
  rcases s.workBid with _ | b <;> rcases s.workAsk with _ | a <;>
    exact ⟨rfl, rfl, rfl, rfl, rfl⟩

lemma flattenAll_fst (s : State) : (flattenAll s).1 = (cancelWorking s).1 := by
  unfold flattenAll
  split_ifs <;> rfl

lemma updGame_fields (s : State) (hs as : ℤ) (ts : Option ℝ) :
    (updGame s hs as ts).pos = s.pos ∧
      (updGame s hs as ts).capital = s.capital ∧
      (updGame s hs as ts).bids = s.bids ∧
      (updGame s hs as ts).asks = s.asks ∧
      (updGame s hs as ts).workBid = s.workBid ∧
      (updGame s hs as ts).workAsk = s.workAsk ∧
      (updGame s hs as ts).start = s.start := by
  rcases ts with _ | v <;> simp only [updGame] <;> split_ifs <;>
    exact ⟨rfl, rfl, rfl, rfl, rfl, rfl, rfl⟩

/-- A best bid is the price of some level of the bid book. -/
lemma bestBid_mem (b : List (ℝ × ℝ)) : ∀ x, bestBid b = some x →
    ∃ q, (x, q) ∈ b := by
  induction b with
  | nil => intro x h; simp [bestBid] at h
  | cons hd tl ih =>
    intro x h
    obtain ⟨p, q0⟩ := hd
    simp only [bestBid] at h
    rcases hr : bestBid tl with _ | m <;> rw [hr] at h
    · split_ifs at h
      obtain rfl : p = x := Option.some_inj.mp h
      exact ⟨q0, List.mem_cons_self _ _⟩
    · split_ifs at h
      · obtain hx : max p m = x := Option.some_inj.mp h
        rcases max_cases p m with ⟨he, -⟩ | ⟨he, -⟩
        · exact ⟨q0, by rw [← hx, he]; exact List.mem_cons_self _ _⟩
        · obtain ⟨qm, hm⟩ := ih m hr
          refine ⟨qm, ?_⟩
          rw [← hx, he]
          exact List.mem_cons_of_mem _ hm
      · obtain hx : m = x := Option.some_inj.mp h
        obtain ⟨qm, hm⟩ := ih m hr
        exact ⟨qm, hx ▸ List.mem_cons_of_mem _ hm⟩

/-- A best ask is the price of some level of the ask book. -/
lemma bestAsk_mem (b : List (ℝ × ℝ)) : ∀ x, bestAsk b = some x →
    ∃ q, (x, q) ∈ b := by
  induction b with
  | nil => intro x h; simp [bestAsk] at h
  | cons hd tl ih =>
    intro x h
    obtain ⟨p, q0⟩ := hd
    simp only [bestAsk] at h
    rcases hr : bestAsk tl with _ | m <;> rw [hr] at h
    · split_ifs at h
      obtain rfl : p = x := Option.some_inj.mp h
      exact ⟨q0, List.mem_cons_self _ _⟩
    · split_ifs at h
      · obtain hx : min p m = x := Option.some_inj.mp h
        rcases min_cases p m with ⟨he, -⟩ | ⟨he, -⟩
        · exact ⟨q0, by rw [← hx, he]; exact List.mem_cons_self _ _⟩
        · obtain ⟨qm, hm⟩ := ih m hr
          refine ⟨qm, ?_⟩
          rw [← hx, he]
          exact List.mem_cons_of_mem _ hm
      · obtain hx : m = x := Option.some_inj.mp h
        obtain ⟨qm, hm⟩ := ih m hr
        exact ⟨qm, hx ▸ List.mem_cons_of_mem _ hm⟩

/-! ### Claim C1: event handlers and re-evaluation of the decision engine -/

/-- C1 (counterexample): at `demoState` the decision engine would emit a
command, yet `on_trade_update` (whose body is `pass`) emits nothing — so a
trade print does not re-evaluate `_try_trade`, contrary to the claim. -/
theorem C1_counterexample :
    (onTradeUpdate demoState Ticker.TEAM_A Side.BUY 5.0 41.0 10.0 0).2 = [] ∧
      (tryTrade demoState 10.0 0 False).2 ≠ [] := by
  refine ⟨rfl, ?_⟩
  rw [tryTrade_demo]
  simp

/-- C1 (amended): book deltas and snapshots update the book and then
unconditionally re-evaluate `_try_trade`; trade prints change nothing and
never re-evaluate; account fills update capital/position/handles and emit at
most cancel commands, without re-evaluating; game events re-evaluate
`_try_trade` only when the event is not END_GAME and the updated clock is
above the close-out buffer. -/
theorem C1_amended :
    (∀ s tk side q p now oid,
      onOrderbookUpdate s tk side q p now oid =
        tryTrade (applyBookUpdate s side q p) now oid False) ∧
    (∀ s tk bids asks now oid,
      onOrderbookSnapshot s tk bids asks now oid =
        tryTrade (applySnapshot s bids asks) now oid False) ∧
    (∀ s tk side q p now oid, onTradeUpdate s tk side q p now oid = (s, [])) ∧
    (∀ s tk side p q cap c, c ∈ (onAccountUpdate s tk side p q cap).2 →
      ∃ i, c = Cmd.cancel i) ∧
    (∀ s et hs as st ts now oid, et ≠ "END_GAME" →
      CLOSE_OUT_BUFFER < (updGame s hs as ts).t →
      onGameEventUpdate s et hs as st ts now oid =
        tryTrade (updGame s hs as ts) now oid
          (highImpactOf et st (updGame s hs as ts).t)) := by
  refine ⟨?_, ?_, ?_, ?_, ?_⟩
  · intro s tk side q p now oid
    cases tk
    rfl
  · intro s tk bids asks now oid
    cases tk
    rfl
  · intro s tk side q p now oid
    rfl
  · intro s tk side p q cap c h
    simp only [onAccountUpdate] at h
    split_ifs at h <;>
      rcases hb : s.workBid with _ | b <;> rcases ha : s.workAsk with _ | a <;>
        rw [hb, ha] at h <;> simp at h <;>
        first
          | exact ⟨_, h⟩
          | (rcases h with h | h
             · exact ⟨_, h⟩
             · exact ⟨_, h⟩)
  · intro s et hs as st ts now oid hne hgt
    simp only [onGameEventUpdate]
    rw [if_neg hne, if_neg (not_le.mpr hgt)]

/-- C1 (amended, witness): the account-fill clause at `cState` (the emitted
command is the cancel of the filled buy handle) and the game-event clause at
`cState` with a SCORE event and 600 units on the clock. -/
theorem C1_amended_witness :
    (Cmd.cancel 5 ∈
        (onAccountUpdate cState Ticker.TEAM_A Side.BUY 50.0 10.0 90000.0).2 ∧
      ∃ i, Cmd.cancel 5 = Cmd.cancel i) ∧
    (("SCORE" : String) ≠ "END_GAME" ∧
      CLOSE_OUT_BUFFER < (updGame cState 1 0 none).t ∧
      onGameEventUpdate cState "SCORE" 1 0 none none 10.0 0 =
        tryTrade (updGame cState 1 0 none) 10.0 0
          (highImpactOf "SCORE" none (updGame cState 1 0 none).t)) := by
  have hmem : Cmd.cancel 5 ∈
      (onAccountUpdate cState Ticker.TEAM_A Side.BUY 50.0 10.0 90000.0).2 := by
    simp only [onAccountUpdate, cState]
    norm_num
  have hne : ("SCORE" : String) ≠ "END_GAME" := by decide
  have ht : CLOSE_OUT_BUFFER < (updGame cState 1 0 none).t := by
    simp only [updGame, cState]
    norm_num [CLOSE_OUT_BUFFER]
  exact ⟨⟨hmem, C1_amended.2.2.2.1 cState Ticker.TEAM_A Side.BUY 50.0 10.0
      90000.0 _ hmem⟩,
    ⟨hne, ht, C1_amended.2.2.2.2 cState "SCORE" 1 0 none none 10.0 0 hne ht⟩⟩

/-! ### Claim C2: the sizing function -/

lemma sizeForEdge_cx1 : sizeForEdge 100.0 0.0 3.0 0.5 = 4.0 := by
  simp only [sizeForEdge, edgeFactor, RISK_PCT, MAX_POS]
  rw [if_neg (by norm_num)]
  rw [abs_of_pos (by norm_num : (0:ℝ) < 3.0)]
  rw [min_eq_left (by norm_num : (1.5:ℝ) ≤ 3.0 / 2.0)]
  rw [urgency_zero]
  rw [max_eq_left (by norm_num : (0.5:ℝ) ≤ 1.0)]
  rw [max_eq_left (by norm_num : (100.0 * 0.007 / 1.0 : ℝ) ≤ 1.0)]
  rw [min_eq_left (by norm_num : (1.0 * (0.5 + 1.5) * 2 : ℝ) ≤ 800.0 * 0.25)]
  rw [show (1.0 * (0.5 + 1.5) * 2 : ℝ) = ((4:ℤ) : ℝ) by norm_num]
  rw [Int.floor_intCast]
  norm_num

lemma sizeForEdgeSpec_cx1 : sizeForEdgeSpec 100.0 0.0 3.0 0.5 = 5.0 := by
  simp only [sizeForEdgeSpec, edgeFactorSpec, RISK_PCT, MAX_POS]
  rw [if_neg (by norm_num)]
  rw [abs_of_pos (by norm_num : (0:ℝ) < 3.0)]
  rw [min_eq_left (by norm_num : (2.0:ℝ) ≤ 3.0)]
  rw [max_eq_right (by norm_num : (0.5:ℝ) ≤ 2.0)]
  rw [urgency_zero]
  rw [min_eq_right (by norm_num : (100.0 * 0.007 / 0.5 * 2.0 * 2 : ℝ) ≤ 800.0 * 0.25)]
  rw [show (100.0 * 0.007 / 0.5 * 2.0 * 2 : ℝ) = 5.6 by norm_num]
  rw [show (Int.floor (5.6 : ℝ)) = 5 by rw [Int.floor_eq_iff] <;> norm_num]
  norm_num

lemma sizeForEdge_cx2 : sizeForEdge 100000.0 0.0 2.0 50.0 = 42.0 := by
  simp only [sizeForEdge, edgeFactor, RISK_PCT, MAX_POS]
  rw [if_neg (by norm_num)]
  rw [abs_of_pos (by norm_num : (0:ℝ) < 2.0)]
  rw [min_eq_right (by norm_num : (2.0 / 2.0 : ℝ) ≤ 1.5)]
  rw [urgency_zero]
  rw [max_eq_right (by norm_num : (1.0:ℝ) ≤ 50.0)]
  rw [max_eq_right (by norm_num : (1.0:ℝ) ≤ 100000.0 * 0.007 / 50.0)]
  rw [min_eq_left (by norm_num :
    (100000.0 * 0.007 / 50.0 * (0.5 + 2.0 / 2.0) * 2 : ℝ) ≤ 800.0 * 0.25)]
  rw [show (100000.0 * 0.007 / 50.0 * (0.5 + 2.0 / 2.0) * 2 : ℝ) = ((42:ℤ) : ℝ) by norm_num]
  rw [Int.floor_intCast]
  norm_num

lemma sizeForEdgeSpec_cx2 : sizeForEdgeSpec 100000.0 0.0 2.0 50.0 = 56.0 := by
  simp only [sizeForEdgeSpec, edgeFactorSpec, RISK_PCT, MAX_POS]
  rw [if_neg (by norm_num)]
  rw [abs_of_pos (by norm_num : (0:ℝ) < 2.0)]
  rw [min_self]
  rw [max_eq_right (by norm_num : (0.5:ℝ) ≤ 2.0)]
  rw [urgency_zero]
  rw [min_eq_right (by norm_num :
    (100000.0 * 0.007 / 50.0 * 2.0 * 2 : ℝ) ≤ 800.0 * 0.25)]
  rw [show (100000.0 * 0.007 / 50.0 * 2.0 * 2 : ℝ) = ((56:ℤ) : ℝ) by norm_num]
  rw [Int.floor_intCast]
  norm_num

/-- C2 (counterexample): the code's sizing differs from the claim's formula.
At capital 100, clock 0, edge 3, reference price 0.5 the code returns 4
(because the base is clamped as `max(1, budget / max(1, p))`), while the
claim's unclamped `capital * 0.007 / p` gives 5.  At capital 100000, clock 0,
edge 2, reference price 50 the code returns 42 (the edge factor at `|e| = 2`
is only 1.5, saturating at `|e| = 3`), while the claim's factor — saturated
to 2.0 at `|e| = 2` — gives 56. -/
theorem C2_counterexample :
    (sizeForEdge 100.0 0.0 3.0 0.5 = 4.0 ∧
      sizeForEdgeSpec 100.0 0.0 3.0 0.5 = 5.0 ∧ (4.0 : ℝ) ≠ 5.0) ∧
    (sizeForEdge 100000.0 0.0 2.0 50.0 = 42.0 ∧
      sizeForEdgeSpec 100000.0 0.0 2.0 50.0 = 56.0 ∧ (42.0 : ℝ) ≠ 56.0) :=
  ⟨⟨sizeForEdge_cx1, sizeForEdgeSpec_cx1, by norm_num⟩,
    ⟨sizeForEdge_cx2, sizeForEdgeSpec_cx2, by norm_num⟩⟩

/-- C2 (amended): the sizing function returns 0 when the reference price is
non-positive, and otherwise the (max-with-0) whole-unit floor of
`min(cap, base * f * u)` where `base = max(1, capital * 0.007 / max(1, p))`,
the edge factor `f = 0.5 + min(1.5, |e|/2)` lies in `[0.5, 2.0]` and
saturates (reaches 2.0) exactly at `|e| = 3.0` price points, the urgency
multiplier `u = 1 + (1 - tanh(max(t,0)/800))` lies in `(1.0, 2.0]` and rises
over an 800-unit horizon as remaining time approaches zero, and `cap = 200`
is 25% of the absolute position limit. -/
theorem C2_amended :
    (∀ c t e r, r ≤ 0.0 → sizeForEdge c t e r = 0.0) ∧
    (∀ c t e r, 0.0 < r → sizeForEdge c t e r =
      max 0.0 ((Int.floor (min
        (max 1.0 (c * RISK_PCT / max 1.0 r) * edgeFactor e * urgency t)
        (MAX_POS * 0.25)) : ℤ) : ℝ)) ∧
    (∀ e, 0.5 ≤ edgeFactor e ∧ edgeFactor e ≤ 2.0) ∧
    (∀ e, 3.0 ≤ |e| → edgeFactor e = 2.0) ∧
    (∀ e, |e| < 3.0 → edgeFactor e < 2.0) ∧
    (∀ t, 1.0 < urgency t ∧ urgency t ≤ 2.0) ∧
    MAX_POS * 0.25 = 200.0 := by
  refine ⟨?_, ?_, ?_, ?_, ?_, ?_, by norm_num [MAX_POS]⟩
  · intro c t e r hr
    simp only [sizeForEdge]
    rw [if_pos hr]
  · intro c t e r hr
    simp only [sizeForEdge]
    rw [if_neg (not_le.mpr hr)]
  · intro e
    unfold edgeFactor
    have h0 : 0 ≤ min 1.5 (|e| / 2.0) := le_min (by norm_num) (by positivity)
    have h1 : min 1.5 (|e| / 2.0) ≤ 1.5 := min_le_left _ _
    constructor <;> linarith
  · intro e he
    unfold edgeFactor
    rw [min_eq_left (by linarith)]
    norm_num
  · intro e he
    unfold edgeFactor
    have h1 : min 1.5 (|e| / 2.0) ≤ |e| / 2.0 := min_le_right _ _
    linarith
  · intro t
    unfold urgency
    have h0 : 0 ≤ max t 0.0 / 800.0 := by positivity
    have h1 := tanh_nonneg h0
    have h2 := tanh_lt_one (max t 0.0 / 800.0)
    constructor <;> linarith

/-- C2 (amended, witness): the amended sizing characterization at concrete
inputs — zero size at reference price −1; the clamped formula at
(100, 0, 3, 0.5); factor saturation at edge 3; strict non-saturation at
edge 1. -/
theorem C2_amended_witness :
    ((-1.0 : ℝ) ≤ 0.0 ∧ sizeForEdge 100.0 0.0 3.0 (-1.0) = 0.0) ∧
    ((0.0 : ℝ) < 0.5 ∧ sizeForEdge 100.0 0.0 3.0 0.5 =
      max 0.0 ((Int.floor (min
        (max 1.0 (100.0 * RISK_PCT / max 1.0 0.5) * edgeFactor 3.0 * urgency 0.0)
        (MAX_POS * 0.25)) : ℤ) : ℝ)) ∧
    ((3.0 : ℝ) ≤ |(3.0 : ℝ)| ∧ edgeFactor 3.0 = 2.0) ∧
    (|(1.0 : ℝ)| < 3.0 ∧ edgeFactor 1.0 < 2.0) := by
  have h1 : (-1.0 : ℝ) ≤ 0.0 := by norm_num
  have h2 : (0.0 : ℝ) < 0.5 := by norm_num
  have h3 : (3.0 : ℝ) ≤ |(3.0 : ℝ)| := by
    rw [abs_of_pos (by norm_num : (0:ℝ) < 3.0)]
  have h4 : |(1.0 : ℝ)| < 3.0 := by
    rw [abs_of_pos (by norm_num : (0:ℝ) < 1.0)]
    norm_num
  exact ⟨⟨h1, C2_amended.1 100.0 0.0 3.0 (-1.0) h1⟩,
    ⟨h2, C2_amended.2.1 100.0 0.0 3.0 0.5 h2⟩,
    ⟨h3, C2_amended.2.2.2.1 3.0 h3⟩,
    ⟨h4, C2_amended.2.2.2.2.1 1.0 h4⟩⟩

/-! ### Claim C3: dual-format time inference -/

/-- C3 (counterexample): with stored time 2880 and a reported time 2400
(plausible for both game-length formats), the code stores 2400 — the
shorter-format interpretation — whereas the claim's longer-format rule
(maximum of the current stored time and the reported time) would store
2880. -/
theorem C3_counterexample :
    timeUpdate 2880.0 2400.0 = 2400.0 ∧
      timeUpdateSpec 2880.0 2400.0 = 2880.0 ∧ (2400.0 : ℝ) ≠ 2880.0 := by
  refine ⟨?_, ?_, by norm_num⟩
  · simp only [timeUpdate, GAME_LEN1, GAME_LEN2]
    rw [if_pos (by norm_num), if_pos (by norm_num), max_self]
  · simp only [timeUpdateSpec, GAME_LEN2]
    rw [if_pos (by norm_num), max_eq_left (by norm_num)]

/-- C3 (amended): a reported time not exceeding the shorter length (+1
tolerance) is stored as-is, even when it is also plausible for the longer
format and smaller than the current stored time; otherwise, a reported time
not exceeding the longer length (+1) is stored as the maximum of the current
stored time and the reported time; otherwise the stored time is unchanged. -/
theorem C3_amended (cur ts : ℝ) :
    timeUpdate cur ts =
      if ts ≤ GAME_LEN1 + 1.0 then ts
      else if ts ≤ GAME_LEN2 + 1.0 then max cur ts else cur := by
  simp only [timeUpdate, GAME_LEN1, GAME_LEN2]
  split_ifs <;> first
    | rw [max_self]
    | rfl

/-! ### Claim C4: fill reconciliation of working handles -/

/-- C4 (counterexample): a buy fill that takes the position from 0 to +10
leaves the working sell handle (id 7) in place and emits an explicit cancel
command for the working buy handle (id 5) — the claim says the sell handle
is cleared and that no explicit cancel is issued. -/
theorem C4_counterexample :
    (onAccountUpdate cState Ticker.TEAM_A Side.BUY 50.0 10.0 90000.0).1.workAsk
        = some 7 ∧
      (onAccountUpdate cState Ticker.TEAM_A Side.BUY 50.0 10.0 90000.0).2
        = [Cmd.cancel 5] := by
  constructor <;>
    · simp only [onAccountUpdate, cState]
      norm_num

/-- C4 (amended): a fill that makes the position strictly positive clears the
working BUY handle, emitting an explicit cancel command for it, and leaves
the sell handle untouched; symmetrically, a fill that makes the position
strictly negative clears the working SELL handle with an explicit cancel. -/
theorem C4_amended (s : State) (tk : Ticker) (side : Side)
    (p q cap : ℝ) :
    (0.0 < s.pos + (if side = Side.BUY then q else -q) →
      (onAccountUpdate s tk side p q cap).1.workBid = none ∧
      (onAccountUpdate s tk side p q cap).1.workAsk = s.workAsk ∧
      (∀ b, s.workBid = some b →
        (onAccountUpdate s tk side p q cap).2 = [Cmd.cancel b]) ∧
      (s.workBid = none → (onAccountUpdate s tk side p q cap).2 = [])) ∧
    (s.pos + (if side = Side.BUY then q else -q) < 0.0 →
      (onAccountUpdate s tk side p q cap).1.workAsk = none ∧
      (onAccountUpdate s tk side p q cap).1.workBid = s.workBid ∧
      (∀ a, s.workAsk = some a →
        (onAccountUpdate s tk side p q cap).2 = [Cmd.cancel a]) ∧
      (s.workAsk = none → (onAccountUpdate s tk side p q cap).2 = [])) := by
  constructor
  · intro hpos
    simp only [onAccountUpdate]
    rw [if_pos hpos, if_neg (not_lt.mpr (le_of_lt hpos))]
    rcases hb : s.workBid with _ | b <;> rcases ha : s.workAsk with _ | a <;>
      simp_all
  · intro hneg
    simp only [onAccountUpdate]
    rw [if_neg (not_lt.mpr (le_of_lt hneg)), if_pos hneg]
    rcases hb : s.workBid with _ | b <;> rcases ha : s.workAsk with _ | a <;>
      simp_all

/-- C4 (amended, witness): at `cState` (handles 5 and 7, flat position), a
buy fill of 10 makes the position +10 > 0; the buy handle is cleared with an
explicit cancel and the sell handle survives. -/
theorem C4_amended_witness :
    (0.0 < cState.pos + (if Side.BUY = Side.BUY then 10.0 else -10.0)) ∧
      (onAccountUpdate cState Ticker.TEAM_A Side.BUY 50.0 10.0 90000.0).1.workBid = none ∧
      (onAccountUpdate cState Ticker.TEAM_A Side.BUY 50.0 10.0 90000.0).1.workAsk = cState.workAsk ∧
      (onAccountUpdate cState Ticker.TEAM_A Side.BUY 50.0 10.0 90000.0).2 = [Cmd.cancel 5] := by
  have hpos : (0.0 : ℝ) < cState.pos + (if Side.BUY = Side.BUY then 10.0 else -10.0) := by
    norm_num [cState]
  obtain ⟨h1, h2, h3, -⟩ :=
    (C4_amended cState Ticker.TEAM_A Side.BUY 50.0 10.0 90000.0).1 hpos
  exact ⟨hpos, h1, h2, h3 5 rfl⟩

/-! ### Claim C5: sizing clamped to position headroom -/

/-- Membership in the one-or-zero element cancel list of a working handle. -/
lemma optCancelList_mem (o : Option ℤ) (c : Cmd)
    (h : c ∈ (match o with | some b => [Cmd.cancel b] | none => ([] : List Cmd))) :
    ∃ i, c = Cmd.cancel i := by
  rcases o with _ | b
  · simp at h
  · simp at h
    exact ⟨b, h⟩

/-- The sizing function never returns a negative size. -/
lemma sizeForEdge_nonneg (c t e r : ℝ) : 0 ≤ sizeForEdge c t e r := by
  unfold sizeForEdge
  split_ifs
  · norm_num
  · exact le_trans (by norm_num) (le_max_left _ _)

/-- Clamping a buy to the remaining headroom keeps the position in the cap. -/
lemma clamp_buy (pos σ q : ℝ) (hσ : 0 ≤ σ) (hq : q = min σ (MAX_POS - pos))
    (hlo : -MAX_POS ≤ pos) (hhi : pos ≤ MAX_POS) : |pos + q| ≤ MAX_POS := by
  rw [hq]
  have h0 : (0:ℝ) ≤ min σ (MAX_POS - pos) := le_min hσ (by linarith)
  have h1 := min_le_right σ (MAX_POS - pos)
  refine abs_le.mpr ⟨by linarith, by linarith⟩

/-- Clamping a sell to the remaining headroom keeps the position in the cap. -/
lemma clamp_sell (pos σ q : ℝ) (hσ : 0 ≤ σ) (hq : q = min σ (pos + MAX_POS))
    (hlo : -MAX_POS ≤ pos) (hhi : pos ≤ MAX_POS) : |pos - q| ≤ MAX_POS := by
  rw [hq]
  have h0 : (0:ℝ) ≤ min σ (pos + MAX_POS) := le_min hσ (by linarith)
  have h1 := min_le_right σ (pos + MAX_POS)
  refine abs_le.mpr ⟨by linarith, by linarith⟩

/-- Core of C5, at the level of `tryTradeGo`: any limit order emitted keeps
the fully-filled position inside the cap. -/
lemma tryTradeGo_limit_clamped (s : State) (oid : ℤ) (hi : Prop) (bb aa : ℝ)
    (hpos : |s.pos| ≤ MAX_POS) (side : Side) (q p : ℝ) (io : Bool)
    (hmem : Cmd.placeLimit side q p io ∈ (tryTradeGo s oid hi bb aa).2) :
    (side = Side.BUY → |s.pos + q| ≤ MAX_POS) ∧
    (side = Side.SELL → |s.pos - q| ≤ MAX_POS) := by
  obtain ⟨hlo, hhi⟩ := abs_le.mp hpos
  simp only [tryTradeGo] at hmem
  split_ifs at hmem
  -- late-game unwind branches: only market orders
  · simp at hmem
  · simp at hmem
  -- cross-the-spread buy
  · simp at hmem
    rcases hmem with h | ⟨hside, hq, -, -⟩
    · obtain ⟨i, hi2⟩ := cancelWorking_cmds s _ h
      exact Cmd.noConfusion hi2
    · subst hside
      subst hq
      exact ⟨fun _ => clamp_buy _ _ _ (sizeForEdge_nonneg _ _ _ _) rfl hlo hhi,
        fun hs => Side.noConfusion hs⟩
  -- cross-the-spread sell
  · simp at hmem
    rcases hmem with h | ⟨hside, hq, -, -⟩
    · obtain ⟨i, hi2⟩ := cancelWorking_cmds s _ h
      exact Cmd.noConfusion hi2
    · subst hside
      subst hq
      exact ⟨fun hs => Side.noConfusion hs,
        fun _ => clamp_sell _ _ _ (sizeForEdge_nonneg _ _ _ _) rfl hlo hhi⟩
  -- passive buy (placement id stored / discarded)
  · simp at hmem
    rcases hmem with h | h | ⟨hside, hq, -, -⟩
    · rcases hob : s.workBid with _ | b1 <;> simp only [hob] at h <;> simp at h
    · rcases hoa : s.workAsk with _ | a1 <;> simp only [hoa] at h <;> simp at h
    · subst hside
      subst hq
      exact ⟨fun _ => clamp_buy _ _ _ (sizeForEdge_nonneg _ _ _ _) rfl hlo hhi,
        fun hs => Side.noConfusion hs⟩
  · simp at hmem
    rcases hmem with h | h | ⟨hside, hq, -, -⟩
    · rcases hob : s.workBid with _ | b1 <;> simp only [hob] at h <;> simp at h
    · rcases hoa : s.workAsk with _ | a1 <;> simp only [hoa] at h <;> simp at h
    · subst hside
      subst hq
      exact ⟨fun _ => clamp_buy _ _ _ (sizeForEdge_nonneg _ _ _ _) rfl hlo hhi,
        fun hs => Side.noConfusion hs⟩
  · simp at hmem
  -- passive sell (placement id stored / discarded)
  · simp at hmem
    rcases hmem with h | h | ⟨hside, hq, -, -⟩
    · rcases hoa : s.workAsk with _ | a1 <;> simp only [hoa] at h <;> simp at h
    · rcases hob : s.workBid with _ | b1 <;> simp only [hob] at h <;> simp at h
    · subst hside
      subst hq
      exact ⟨fun hs => Side.noConfusion hs,
        fun _ => clamp_sell _ _ _ (sizeForEdge_nonneg _ _ _ _) rfl hlo hhi⟩
  · simp at hmem
    rcases hmem with h | h | ⟨hside, hq, -, -⟩
    · rcases hoa : s.workAsk with _ | a1 <;> simp only [hoa] at h <;> simp at h
    · rcases hob : s.workBid with _ | b1 <;> simp only [hob] at h <;> simp at h
    · subst hside
      subst hq
      exact ⟨fun hs => Side.noConfusion hs,
        fun _ => clamp_sell _ _ _ (sizeForEdge_nonneg _ _ _ _) rfl hlo hhi⟩
  · simp at hmem
  -- no actionable edge: cancels only
  · obtain ⟨i, hi2⟩ := cancelWorking_cmds s _ hmem
    exact Cmd.noConfusion hi2

/-- C5: starting inside the position cap, any single limit order emitted by
an evaluation of the decision engine (cross or passive branch) is clamped so
that its full execution keeps the position magnitude within `MAX_POS`. -/
theorem C5_sizing_clamped (s : State) (now : ℝ) (oid : ℤ) (hi : Prop)
    (side : Side) (q p : ℝ) (io : Bool)
    (hpos : |s.pos| ≤ MAX_POS)
    (hmem : Cmd.placeLimit side q p io ∈ (tryTrade s now oid hi).2) :
    (side = Side.BUY → |s.pos + q| ≤ MAX_POS) ∧
    (side = Side.SELL → |s.pos - q| ≤ MAX_POS) := by
  unfold tryTrade at hmem
  split_ifs at hmem
  · simp at hmem
  · rcases hbb : bestBid s.bids with _ | bb <;> rw [hbb] at hmem <;>
      rcases haa : bestAsk s.asks with _ | aa <;> rw [haa] at hmem
    · simp at hmem
    · simp at hmem
    · simp at hmem
    · exact tryTradeGo_limit_clamped s oid hi bb aa hpos side q p io hmem

/-- C5 (witness): at `demoState` (flat position), the emitted IOC buy of 68
keeps the position within the cap. -/
theorem C5_sizing_clamped_witness :
    |demoState.pos| ≤ MAX_POS ∧
      Cmd.placeLimit Side.BUY 68.0 42.0 true ∈ (tryTrade demoState 10.0 0 False).2 ∧
      |demoState.pos + 68.0| ≤ MAX_POS := by
  have h1 : |demoState.pos| ≤ MAX_POS := by
    rw [show demoState.pos = 0.0 from rfl]
    norm_num [MAX_POS]
  have h2 : Cmd.placeLimit Side.BUY 68.0 42.0 true ∈
      (tryTrade demoState 10.0 0 False).2 := by
    rw [tryTrade_demo]
    simp
  exact ⟨h1, h2,
    (C5_sizing_clamped demoState 10.0 0 False Side.BUY 68.0 42.0 true h1 h2).1 rfl⟩

/-! ### Claim C7: the passive-resting branch -/

/-- The tightened threshold never falls below its floor of 0.2. -/
lemma edgeThreshold_ge02 (t : ℝ) : 0.2 ≤ edgeThreshold t := le_max_left _ _

/-- Core of C7, at the level of `tryTradeGo`: a passive placement (ioc =
false) happens only on the side with the strictly larger edge, above the
threshold, with headroom; it is priced one tick inside the best price, sized
like the crossing case, cancels both working orders as needed, stores the new
id only when it is non-negative, and clears the opposite handle. -/
lemma tryTradeGo_passive (s : State) (oid : ℤ) (hi : Prop) (bb aa : ℝ)
    (hbb0 : 0.0 ≤ bb) (haa100 : aa ≤ 100.0) (side : Side) (q p : ℝ)
    (hmem : Cmd.placeLimit side q p false ∈ (tryTradeGo s oid hi bb aa).2) :
    (side = Side.BUY →
      bb - fair s.t s.lead s.momentum < fair s.t s.lead s.momentum - aa ∧
      edgeThreshold s.t < fair s.t s.lead s.momentum - aa ∧
      s.pos < MAX_POS ∧
      p = bb + PASSIVE_IMPROVE ∧
      q = min (sizeForEdge s.capital s.t (fair s.t s.lead s.momentum - aa)
        (0.5 * (bb + aa))) (MAX_POS - s.pos) ∧
      (∀ b, s.workBid = some b →
        Cmd.cancel b ∈ (tryTradeGo s oid hi bb aa).2) ∧
      (∀ a2, s.workAsk = some a2 →
        Cmd.cancel a2 ∈ (tryTradeGo s oid hi bb aa).2) ∧
      (tryTradeGo s oid hi bb aa).1.workBid =
        (if 0 ≤ oid then some oid else s.workBid) ∧
      (tryTradeGo s oid hi bb aa).1.workAsk = none) ∧
    (side = Side.SELL →
      fair s.t s.lead s.momentum - aa < bb - fair s.t s.lead s.momentum ∧
      edgeThreshold s.t < bb - fair s.t s.lead s.momentum ∧
      -MAX_POS < s.pos ∧
      p = aa - PASSIVE_IMPROVE ∧
      q = min (sizeForEdge s.capital s.t (bb - fair s.t s.lead s.momentum)
        (0.5 * (bb + aa))) (s.pos + MAX_POS) ∧
      (∀ a2, s.workAsk = some a2 →
        Cmd.cancel a2 ∈ (tryTradeGo s oid hi bb aa).2) ∧
      (∀ b, s.workBid = some b →
        Cmd.cancel b ∈ (tryTradeGo s oid hi bb aa).2) ∧
      (tryTradeGo s oid hi bb aa).1.workAsk =
        (if 0 ≤ oid then some oid else s.workAsk) ∧
      (tryTradeGo s oid hi bb aa).1.workBid = none) := by
  simp only [tryTradeGo] at hmem
  split_ifs at hmem with h1 h2 h3 h4 h5 h6 h7 h8 h9 h10
  -- unwind branches: market orders only
  · simp at hmem
  · simp at hmem
  -- cross branches: the placement carries ioc = true
  · simp at hmem
    obtain ⟨i, hi2⟩ := cancelWorking_cmds s _ hmem
    exact Cmd.noConfusion hi2
  · simp at hmem
    obtain ⟨i, hi2⟩ := cancelWorking_cmds s _ hmem
    exact Cmd.noConfusion hi2
  -- passive buy, placement id non-negative
  · simp at hmem
    rcases hmem with h | h | ⟨hside, hq, hp⟩
    · rcases hob : s.workBid with _ | b1 <;> simp only [hob] at h <;> simp at h
    · rcases hoa : s.workAsk with _ | a1 <;> simp only [hoa] at h <;> simp at h
    · subst hside
      subst hq
      have hnac : ¬(max 0.0 (aa - bb) ≤ MAX_SPREAD_TO_CROSS ∨ hi) := by
        intro hac
        exact h3 ⟨hac, h5.2.1, h5.2.2, h6⟩
      obtain ⟨hsp, -⟩ := not_or.mp hnac
      have hsp2 : 2.0 < aa - bb := by
        have hlt := not_le.mp hsp
        unfold MAX_SPREAD_TO_CROSS at hlt
        rcases lt_max_iff.mp hlt with h | h
        · norm_num at h
        · exact h
      have hpx : clampPrice (bb + PASSIVE_IMPROVE) = bb + PASSIVE_IMPROVE := by
        unfold clampPrice PASSIVE_IMPROVE
        rw [max_eq_right (by linarith), min_eq_right (by linarith)]
      have heq : tryTradeGo s oid hi bb aa =
          ({ s with workAsk := none,
                    workBid := if 0 ≤ oid then some oid else s.workBid },
            (match s.workBid with | some b => [Cmd.cancel b] | none => []) ++
            (match s.workAsk with | some a2 => [Cmd.cancel a2] | none => []) ++
            [Cmd.placeLimit Side.BUY
              (min (sizeForEdge s.capital s.t (fair s.t s.lead s.momentum - aa)
                (0.5 * (bb + aa))) (MAX_POS - s.pos))
              (clampPrice (bb + PASSIVE_IMPROVE)) false]) := by
        simp only [tryTradeGo]
        rw [if_neg h1, if_neg h2, if_neg h3, if_neg h4, if_pos h5, if_pos h6]
      refine ⟨fun _ => ⟨h5.1, h5.2.1, h5.2.2, hp.trans hpx, rfl, ?_, ?_, ?_, ?_⟩,
        fun hs => Side.noConfusion hs⟩
      · intro b hb
        rw [heq]
        rw [hb]
        simp
      · intro a2 ha
        rw [heq]
        rw [ha]
        simp
      · rw [heq]
      · rw [heq]
  -- passive buy, placement id negative (same command list)
  · simp at hmem
    rcases hmem with h | h | ⟨hside, hq, hp⟩
    · rcases hob : s.workBid with _ | b1 <;> simp only [hob] at h <;> simp at h
    · rcases hoa : s.workAsk with _ | a1 <;> simp only [hoa] at h <;> simp at h
    · subst hside
      subst hq
      have hnac : ¬(max 0.0 (aa - bb) ≤ MAX_SPREAD_TO_CROSS ∨ hi) := by
        intro hac
        exact h3 ⟨hac, h5.2.1, h5.2.2, h6⟩
      obtain ⟨hsp, -⟩ := not_or.mp hnac
      have hsp2 : 2.0 < aa - bb := by
        have hlt := not_le.mp hsp
        unfold MAX_SPREAD_TO_CROSS at hlt
        rcases lt_max_iff.mp hlt with h | h
        · norm_num at h
        · exact h
      have hpx : clampPrice (bb + PASSIVE_IMPROVE) = bb + PASSIVE_IMPROVE := by
        unfold clampPrice PASSIVE_IMPROVE
        rw [max_eq_right (by linarith), min_eq_right (by linarith)]
      have heq : tryTradeGo s oid hi bb aa =
          ({ s with workAsk := none,
                    workBid := if 0 ≤ oid then some oid else s.workBid },
            (match s.workBid with | some b => [Cmd.cancel b] | none => []) ++
            (match s.workAsk with | some a2 => [Cmd.cancel a2] | none => []) ++
            [Cmd.placeLimit Side.BUY
              (min (sizeForEdge s.capital s.t (fair s.t s.lead s.momentum - aa)
                (0.5 * (bb + aa))) (MAX_POS - s.pos))
              (clampPrice (bb + PASSIVE_IMPROVE)) false]) := by
        simp only [tryTradeGo]
        rw [if_neg h1, if_neg h2, if_neg h3, if_neg h4, if_pos h5, if_pos h6]
      refine ⟨fun _ => ⟨h5.1, h5.2.1, h5.2.2, hp.trans hpx, rfl, ?_, ?_, ?_, ?_⟩,
        fun hs => Side.noConfusion hs⟩
      · intro b hb
        rw [heq]
        rw [hb]
        simp
      · intro a2 ha
        rw [heq]
        rw [ha]
        simp
      · rw [heq]
      · rw [heq]
  · simp at hmem
  -- passive sell, placement id non-negative
  · simp at hmem
    rcases hmem with h | h | ⟨hside, hq, hp⟩
    · rcases hoa : s.workAsk with _ | a1 <;> simp only [hoa] at h <;> simp at h
    · rcases hob : s.workBid with _ | b1 <;> simp only [hob] at h <;> simp at h
    · subst hside
      subst hq
      have hnac : ¬(max 0.0 (aa - bb) ≤ MAX_SPREAD_TO_CROSS ∨ hi) := by
        intro hac
        exact h4 ⟨hac, h8.1, h8.2, h9⟩
      obtain ⟨hsp, -⟩ := not_or.mp hnac
      have hsp2 : 2.0 < aa - bb := by
        have hlt := not_le.mp hsp
        unfold MAX_SPREAD_TO_CROSS at hlt
        rcases lt_max_iff.mp hlt with h | h
        · norm_num at h
        · exact h
      have hthr := edgeThreshold_ge02 s.t
      have hpx : clampPrice (aa - PASSIVE_IMPROVE) = aa - PASSIVE_IMPROVE := by
        unfold clampPrice PASSIVE_IMPROVE
        rw [max_eq_right (by linarith), min_eq_right (by linarith)]
      have heq : tryTradeGo s oid hi bb aa =
          ({ s with workBid := none,
                    workAsk := if 0 ≤ oid then some oid else s.workAsk },
            (match s.workAsk with | some a2 => [Cmd.cancel a2] | none => []) ++
            (match s.workBid with | some b => [Cmd.cancel b] | none => []) ++
            [Cmd.placeLimit Side.SELL
              (min (sizeForEdge s.capital s.t (bb - fair s.t s.lead s.momentum)
                (0.5 * (bb + aa))) (s.pos + MAX_POS))
              (clampPrice (aa - PASSIVE_IMPROVE)) false]) := by
        simp only [tryTradeGo]
        rw [if_neg h1, if_neg h2, if_neg h3, if_neg h4, if_neg h5, if_pos h8,
          if_pos h9]
      refine ⟨fun hs => Side.noConfusion hs,
        fun _ => ⟨by linarith [h8.1], h8.1, h8.2, hp.trans hpx, rfl, ?_, ?_, ?_, ?_⟩⟩
      · intro a2 ha
        rw [heq]
        rw [ha]
        simp
      · intro b hb
        rw [heq]
        rw [hb]
        simp
      · rw [heq]
      · rw [heq]
  -- passive sell, placement id negative
  · simp at hmem
    rcases hmem with h | h | ⟨hside, hq, hp⟩
    · rcases hoa : s.workAsk with _ | a1 <;> simp only [hoa] at h <;> simp at h
    · rcases hob : s.workBid with _ | b1 <;> simp only [hob] at h <;> simp at h
    · subst hside
      subst hq
      have hnac : ¬(max 0.0 (aa - bb) ≤ MAX_SPREAD_TO_CROSS ∨ hi) := by
        intro hac
        exact h4 ⟨hac, h8.1, h8.2, h9⟩
      obtain ⟨hsp, -⟩ := not_or.mp hnac
      have hsp2 : 2.0 < aa - bb := by
        have hlt := not_le.mp hsp
        unfold MAX_SPREAD_TO_CROSS at hlt
        rcases lt_max_iff.mp hlt with h | h
        · norm_num at h
        · exact h
      have hthr := edgeThreshold_ge02 s.t
      have hpx : clampPrice (aa - PASSIVE_IMPROVE) = aa - PASSIVE_IMPROVE := by
        unfold clampPrice PASSIVE_IMPROVE
        rw [max_eq_right (by linarith), min_eq_right (by linarith)]
      have heq : tryTradeGo s oid hi bb aa =
          ({ s with workBid := none,
                    workAsk := if 0 ≤ oid then some oid else s.workAsk },
            (match s.workAsk with | some a2 => [Cmd.cancel a2] | none => []) ++
            (match s.workBid with | some b => [Cmd.cancel b] | none => []) ++
            [Cmd.placeLimit Side.SELL
              (min (sizeForEdge s.capital s.t (bb - fair s.t s.lead s.momentum)
                (0.5 * (bb + aa))) (s.pos + MAX_POS))
              (clampPrice (aa - PASSIVE_IMPROVE)) false]) := by
        simp only [tryTradeGo]
        rw [if_neg h1, if_neg h2, if_neg h3, if_neg h4, if_neg h5, if_pos h8,
          if_pos h9]
      refine ⟨fun hs => Side.noConfusion hs,
        fun _ => ⟨by linarith [h8.1], h8.1, h8.2, hp.trans hpx, rfl, ?_, ?_, ?_, ?_⟩⟩
      · intro a2 ha
        rw [heq]
        rw [ha]
        simp
      · intro b hb
        rw [heq]
        rw [hb]
        simp
      · rw [heq]
      · rw [heq]
  · simp at hmem
  -- no actionable edge: cancels only
  · obtain ⟨i, hi2⟩ := cancelWorking_cmds s _ hmem
    exact Cmd.noConfusion hi2

/-- C7: whenever an evaluation of the decision engine rests a passive order
(a limit placement with ioc = false), the best bid and ask existed, the order
is on the side whose edge is strictly the larger of the two, that edge
exceeds the threshold, the position has headroom on that side, the price is
0.1 inside the relevant best price (buy at best bid + 0.1, sell at best ask
− 0.1), the size is the crossing-case size clamped to the headroom, any
same-side and opposite-side working orders are cancelled, the opposite
handle is cleared, and the new identifier is stored as the tracked handle
exactly when the placement call returned a non-negative identifier (book
prices are assumed within [0, 100], as the clamped handlers guarantee). -/
theorem C7_passive_branch (s : State) (now : ℝ) (oid : ℤ) (hi : Prop)
    (side : Side) (q p : ℝ)
    (hbids : ∀ pq ∈ s.bids, 0.0 ≤ pq.1 ∧ pq.1 ≤ 100.0)
    (hasks : ∀ pq ∈ s.asks, 0.0 ≤ pq.1 ∧ pq.1 ≤ 100.0)
    (hmem : Cmd.placeLimit side q p false ∈ (tryTrade s now oid hi).2) :
    ∃ bb aa, bestBid s.bids = some bb ∧ bestAsk s.asks = some aa ∧
      ((side = Side.BUY →
        bb - fair s.t s.lead s.momentum < fair s.t s.lead s.momentum - aa ∧
        edgeThreshold s.t < fair s.t s.lead s.momentum - aa ∧
        s.pos < MAX_POS ∧
        p = bb + PASSIVE_IMPROVE ∧
        q = min (sizeForEdge s.capital s.t (fair s.t s.lead s.momentum - aa)
          (0.5 * (bb + aa))) (MAX_POS - s.pos) ∧
        (∀ b, s.workBid = some b →
          Cmd.cancel b ∈ (tryTrade s now oid hi).2) ∧
        (∀ a2, s.workAsk = some a2 →
          Cmd.cancel a2 ∈ (tryTrade s now oid hi).2) ∧
        (tryTrade s now oid hi).1.workBid =
          (if 0 ≤ oid then some oid else s.workBid) ∧
        (tryTrade s now oid hi).1.workAsk = none) ∧
      (side = Side.SELL →
        fair s.t s.lead s.momentum - aa < bb - fair s.t s.lead s.momentum ∧
        edgeThreshold s.t < bb - fair s.t s.lead s.momentum ∧
        -MAX_POS < s.pos ∧
        p = aa - PASSIVE_IMPROVE ∧
        q = min (sizeForEdge s.capital s.t (bb - fair s.t s.lead s.momentum)
          (0.5 * (bb + aa))) (s.pos + MAX_POS) ∧
        (∀ a2, s.workAsk = some a2 →
          Cmd.cancel a2 ∈ (tryTrade s now oid hi).2) ∧
        (∀ b, s.workBid = some b →
          Cmd.cancel b ∈ (tryTrade s now oid hi).2) ∧
        (tryTrade s now oid hi).1.workAsk =
          (if 0 ≤ oid then some oid else s.workAsk) ∧
        (tryTrade s now oid hi).1.workBid = none)) := by
  unfold tryTrade at hmem
  split_ifs at hmem with hcool
  · simp at hmem
  · rcases hbb : bestBid s.bids with _ | bb <;> rw [hbb] at hmem
    · simp at hmem
    · rcases haa : bestAsk s.asks with _ | aa <;> rw [haa] at hmem
      · simp at hmem
      · have htt : tryTrade s now oid hi = tryTradeGo s oid hi bb aa := by
          unfold tryTrade
          rw [if_neg hcool, hbb, haa]
        obtain ⟨qb, hqb⟩ := bestBid_mem s.bids bb hbb
        obtain ⟨qa, hqa⟩ := bestAsk_mem s.asks aa haa
        obtain ⟨hB, hS⟩ := tryTradeGo_passive s oid hi bb aa (hbids _ hqb).1
          (hasks _ hqa).2 side q p hmem
        refine ⟨bb, aa, rfl, rfl, ?_, ?_⟩ <;> rw [htt]
        exacts [hB, hS]

lemma sizeForEdge_pDemo (e : ℝ) (he : 3 ≤ e) :
    sizeForEdge 100000.0 0.0 e 35.0 = 80.0 := by
  simp only [sizeForEdge, edgeFactor, RISK_PCT, MAX_POS]
  rw [if_neg (by norm_num)]
  rw [abs_of_pos (by linarith : (0:ℝ) < e)]
  rw [min_eq_left (by linarith : (1.5:ℝ) ≤ e / 2.0)]
  rw [urgency_zero]
  rw [max_eq_right (by norm_num : (1.0:ℝ) ≤ 100000.0 * 0.007 / max 1.0 35.0)]
  rw [max_eq_right (by norm_num : (1.0:ℝ) ≤ 35.0)]
  rw [min_eq_left (by norm_num :
    (100000.0 * 0.007 / 35.0 * (0.5 + 1.5) * 2 : ℝ) ≤ 800.0 * 0.25)]
  rw [show (100000.0 * 0.007 / 35.0 * (0.5 + 1.5) * 2 : ℝ) = ((80:ℤ) : ℝ) by norm_num]
  rw [Int.floor_intCast]
  norm_num

lemma bestBid_pDemo : bestBid pState.bids = some 30.0 := by
  simp only [pState, bestBid]
  rw [if_pos (by norm_num [MIN_QTY_LVL])]

lemma bestAsk_pDemo : bestAsk pState.asks = some 40.0 := by
  simp only [pState, bestAsk]
  rw [if_pos (by norm_num [MIN_QTY_LVL])]

/-- The decision engine at `pState`: the spread (10) is too wide to cross, so
the flat-position engine rests a passive buy of 80 at 30.1 (one tick inside
the best bid), and records the returned id 7 as the working-bid handle. -/
lemma tryTradeGo_pDemo :
    tryTradeGo pState 7 False 30.0 40.0 =
      ({ pState with workAsk := none, workBid := some 7 },
        [Cmd.placeLimit Side.BUY 80.0 30.1 false]) := by
  have hlb := fair000_lb
  have hq : min (sizeForEdge 100000.0 0.0 (fair 0.0 0.0 0.0 - 40.0)
      (0.5 * (30.0 + 40.0))) (MAX_POS - 0.0) = 80.0 := by
    rw [show (0.5 * (30.0 + 40.0) : ℝ) = 35.0 by norm_num]
    rw [sizeForEdge_pDemo _ (by linarith)]
    rw [min_eq_left (by norm_num [MAX_POS])]
  simp only [tryTradeGo, pState]
  rw [if_neg (by rintro ⟨-, h, -⟩; norm_num at h)]
  rw [if_neg (by rintro ⟨-, h, -⟩; norm_num at h)]
  rw [if_neg ?hc3]
  case hc3 =>
    rintro ⟨hac | hf, -, -, -⟩
    · norm_num [MAX_SPREAD_TO_CROSS] at hac
    · exact hf
  rw [if_neg ?hc4]
  case hc4 =>
    rintro ⟨-, hthr, -, -⟩
    rw [edgeThreshold_zero] at hthr
    linarith
  rw [if_pos ?hc5]
  case hc5 =>
    refine ⟨by linarith, ?_, by norm_num [MAX_POS]⟩
    rw [edgeThreshold_zero]
    linarith
  rw [if_pos (by rw [hq]; norm_num)]
  rw [if_pos (by norm_num : (0:ℤ) ≤ 7)]
  rw [hq]
  norm_num [clampPrice, PASSIVE_IMPROVE]

/-- `_try_trade` at `pState`. -/
lemma tryTrade_pDemo :
    tryTrade pState 10.0 7 False =
      ({ pState with workAsk := none, workBid := some 7 },
        [Cmd.placeLimit Side.BUY 80.0 30.1 false]) := by
  unfold tryTrade
  rw [if_neg (by norm_num [pState, INIT_COOLDOWN] :
    ¬(10.0 - pState.start < INIT_COOLDOWN))]
  rw [bestBid_pDemo, bestAsk_pDemo]
  exact tryTradeGo_pDemo

/-- C7 (witness): at `pState` the engine rests a passive buy of 80 at 30.1
with returned id 7; the characterization theorem applies to it. -/
theorem C7_passive_branch_witness :
    (∀ pq ∈ pState.bids, 0.0 ≤ pq.1 ∧ pq.1 ≤ 100.0) ∧
    (∀ pq ∈ pState.asks, 0.0 ≤ pq.1 ∧ pq.1 ≤ 100.0) ∧
    Cmd.placeLimit Side.BUY 80.0 30.1 false ∈ (tryTrade pState 10.0 7 False).2 ∧
    (∃ bb aa, bestBid pState.bids = some bb ∧ bestAsk pState.asks = some aa ∧
      ((Side.BUY = Side.BUY →
        bb - fair pState.t pState.lead pState.momentum <
          fair pState.t pState.lead pState.momentum - aa ∧
        edgeThreshold pState.t < fair pState.t pState.lead pState.momentum - aa ∧
        pState.pos < MAX_POS ∧
        (30.1 : ℝ) = bb + PASSIVE_IMPROVE ∧
        (80.0 : ℝ) = min (sizeForEdge pState.capital pState.t
          (fair pState.t pState.lead pState.momentum - aa)
          (0.5 * (bb + aa))) (MAX_POS - pState.pos) ∧
        (∀ b, pState.workBid = some b →
          Cmd.cancel b ∈ (tryTrade pState 10.0 7 False).2) ∧
        (∀ a2, pState.workAsk = some a2 →
          Cmd.cancel a2 ∈ (tryTrade pState 10.0 7 False).2) ∧
        (tryTrade pState 10.0 7 False).1.workBid =
          (if 0 ≤ (7:ℤ) then some 7 else pState.workBid) ∧
        (tryTrade pState 10.0 7 False).1.workAsk = none) ∧
      (Side.BUY = Side.SELL →
        fair pState.t pState.lead pState.momentum - aa <
          bb - fair pState.t pState.lead pState.momentum ∧
        edgeThreshold pState.t < bb - fair pState.t pState.lead pState.momentum ∧
        -MAX_POS < pState.pos ∧
        (30.1 : ℝ) = aa - PASSIVE_IMPROVE ∧
        (80.0 : ℝ) = min (sizeForEdge pState.capital pState.t
          (bb - fair pState.t pState.lead pState.momentum)
          (0.5 * (bb + aa))) (pState.pos + MAX_POS) ∧
        (∀ a2, pState.workAsk = some a2 →
          Cmd.cancel a2 ∈ (tryTrade pState 10.0 7 False).2) ∧
        (∀ b, pState.workBid = some b →
          Cmd.cancel b ∈ (tryTrade pState 10.0 7 False).2) ∧
        (tryTrade pState 10.0 7 False).1.workAsk =
          (if 0 ≤ (7:ℤ) then some 7 else pState.workAsk) ∧
        (tryTrade pState 10.0 7 False).1.workBid = none))) := by
  have hb : ∀ pq ∈ pState.bids, 0.0 ≤ pq.1 ∧ pq.1 ≤ 100.0 := by
    intro pq hpq
    simp only [pState, List.mem_singleton] at hpq
    subst hpq
    norm_num
  have ha : ∀ pq ∈ pState.asks, 0.0 ≤ pq.1 ∧ pq.1 ≤ 100.0 := by
    intro pq hpq
    simp only [pState, List.mem_singleton] at hpq
    subst hpq
    norm_num
  have hmem : Cmd.placeLimit Side.BUY 80.0 30.1 false ∈
      (tryTrade pState 10.0 7 False).2 := by
    rw [tryTrade_pDemo]
    simp
  exact ⟨hb, ha, hmem,
    C7_passive_branch pState 10.0 7 False Side.BUY 80.0 30.1 hb ha hmem⟩

/-! ### Claim C6: close-out buffer behavior -/

/-- Every command emitted by `_flatten_all` is a cancel or a market order. -/
lemma flattenAll_cmds (s : State) (c : Cmd) (h : c ∈ (flattenAll s).2) :
    (∃ i, c = Cmd.cancel i) ∨ ∃ side q, c = Cmd.placeMarket side q := by
  unfold flattenAll at h
  split_ifs at h
  · rcases List.mem_append.mp h with h | h
    · exact Or.inl (cancelWorking_cmds s c h)
    · simp at h
      exact Or.inr ⟨_, _, h⟩
  · rcases List.mem_append.mp h with h | h
    · exact Or.inl (cancelWorking_cmds s c h)
    · simp at h
      exact Or.inr ⟨_, _, h⟩
  · exact Or.inl (cancelWorking_cmds s c h)

/-- C6 (counterexample): the close-out buffer gates only game events.  At
`demoState0` the game clock is 0 (inside the close-out buffer), yet a book
delta is processed by `on_orderbook_update`, which re-evaluates `_try_trade`
and places a fresh entry order (an IOC buy), with no flatten sequence. -/
theorem C6_counterexample :
    demoState0.t ≤ CLOSE_OUT_BUFFER ∧
      (onOrderbookUpdate demoState0 Ticker.TEAM_A Side.BUY 5.0 40.0 10.0 0).2 =
        [Cmd.placeLimit Side.BUY 68.0 42.0 true] := by
  constructor
  · norm_num [demoState0, demoState, CLOSE_OUT_BUFFER]
  · have hb : applyBookUpdate demoState0 Side.BUY 5.0 40.0 = demoState := by
      simp only [applyBookUpdate, demoState0, demoState, bookSet, clampPrice]
      norm_num
    show (tryTrade (applyBookUpdate demoState0 Side.BUY 5.0 40.0) 10.0 0 False).2 = _
    rw [hb, tryTrade_demo]

/-- C6 (amended): for every *game* event that is not END_GAME and whose
processing leaves the clock at or below the close-out buffer (2 units), the
handler emits exactly the flatten sequence (cancels of the working orders,
then a market order of `floor(|pos|)` against the position if `|pos| ≥ 1`),
places no new entry order, and does not reset state (capital, position, book
and the updated clock are preserved).  Events of other kinds (book deltas,
snapshots) are not gated by the buffer — see the counterexample. -/
theorem C6_amended (s : State) (et : String) (hs as : ℤ) (st : Option String)
    (ts : Option ℝ) (now : ℝ) (oid : ℤ) (hne : et ≠ "END_GAME")
    (hclose : (updGame s hs as ts).t ≤ CLOSE_OUT_BUFFER) :
    onGameEventUpdate s et hs as st ts now oid =
      ((flattenAll (updGame s hs as ts)).1, (flattenAll (updGame s hs as ts)).2) ∧
    (∀ side q p io, Cmd.placeLimit side q p io ∉
      (onGameEventUpdate s et hs as st ts now oid).2) ∧
    (onGameEventUpdate s et hs as st ts now oid).1.capital = s.capital ∧
    (onGameEventUpdate s et hs as st ts now oid).1.pos = s.pos ∧
    (onGameEventUpdate s et hs as st ts now oid).1.bids = s.bids ∧
    (onGameEventUpdate s et hs as st ts now oid).1.asks = s.asks ∧
    (onGameEventUpdate s et hs as st ts now oid).1.t = (updGame s hs as ts).t ∧
    (1.0 ≤ |s.pos| →
      Cmd.placeMarket (if 0.0 < s.pos then Side.SELL else Side.BUY)
          ((Int.floor |s.pos| : ℤ) : ℝ) ∈
        (onGameEventUpdate s et hs as st ts now oid).2) := by
  have heq : onGameEventUpdate s et hs as st ts now oid =
      ((flattenAll (updGame s hs as ts)).1, (flattenAll (updGame s hs as ts)).2) := by
    simp only [onGameEventUpdate]
    rw [if_neg hne, if_pos hclose]
  obtain ⟨hpos, hcap, hbids, hasks, -, -, -⟩ := updGame_fields s hs as ts
  obtain ⟨hcp, hcc, hct, hcb, hca⟩ := cancelWorking_fields (updGame s hs as ts)
  refine ⟨heq, ?_, ?_, ?_, ?_, ?_, ?_, ?_⟩
  · intro side q p io hmem
    rw [heq] at hmem
    rcases flattenAll_cmds _ _ hmem with ⟨i, hi⟩ | ⟨sd, qq, hi⟩ <;>
      exact Cmd.noConfusion hi
  · rw [heq]
    simp only [flattenAll_fst]
    rw [hcc, hcap]
  · rw [heq]
    simp only [flattenAll_fst]
    rw [hcp, hpos]
  · rw [heq]
    simp only [flattenAll_fst]
    rw [hcb, hbids]
  · rw [heq]
    simp only [flattenAll_fst]
    rw [hca, hasks]
  · rw [heq]
    simp only [flattenAll_fst]
    rw [hct]
  · intro habs
    rw [heq]
    unfold flattenAll
    rw [if_pos (by rw [hpos]; exact habs)]
    by_cases hp : 0.0 < s.pos
    · rw [if_pos hp]
      rw [if_pos (by rw [hpos]; exact hp)]
      refine List.mem_append.mpr (Or.inr ?_)
      have hp2 : (0:ℝ) < s.pos := by norm_num at hp; exact hp
      rw [hpos, abs_of_pos hp2]
      simp
    · rw [if_neg hp]
      rw [if_neg (by rw [hpos]; exact hp)]
      refine List.mem_append.mpr (Or.inr ?_)
      have hp2 : s.pos ≤ (0:ℝ) := by
        have := not_lt.mp hp
        norm_num at this
        exact this
      rw [hpos, abs_of_nonpos hp2]
      simp

/-- C6 (amended, witness): at `fState` (position 5, one working bid, clock
100), a SCORE event reporting 1.5 units left drives the clock inside the
buffer; the handler flattens — in particular it emits the market sell of 5 —
and preserves capital and position. -/
theorem C6_amended_witness :
    ("SCORE" : String) ≠ "END_GAME" ∧
      (updGame fState 10 8 (some 1.5)).t ≤ CLOSE_OUT_BUFFER ∧
      (1.0 ≤ |fState.pos| ∧
        Cmd.placeMarket (if 0.0 < fState.pos then Side.SELL else Side.BUY)
            ((Int.floor |fState.pos| : ℤ) : ℝ) ∈
          (onGameEventUpdate fState "SCORE" 10 8 none (some 1.5) 10.0 0).2) ∧
      (onGameEventUpdate fState "SCORE" 10 8 none (some 1.5) 10.0 0).1.capital =
        fState.capital ∧
      (onGameEventUpdate fState "SCORE" 10 8 none (some 1.5) 10.0 0).1.pos =
        fState.pos := by
  have hne : ("SCORE" : String) ≠ "END_GAME" := by decide
  have ht : (updGame fState 10 8 (some 1.5)).t ≤ CLOSE_OUT_BUFFER := by
    simp only [updGame, timeUpdate, fState]
    norm_num [GAME_LEN1, GAME_LEN2, CLOSE_OUT_BUFFER]
  have habs : (1.0 : ℝ) ≤ |fState.pos| := by
    rw [show fState.pos = 5.0 from rfl, abs_of_pos (by norm_num : (0:ℝ) < 5.0)]
    norm_num
  obtain ⟨-, -, hcap, hpos, -, -, -, hmkt⟩ :=
    C6_amended fState "SCORE" 10 8 none (some 1.5) 10.0 0 hne ht
  exact ⟨hne, ht, ⟨habs, hmkt habs⟩, hcap, hpos⟩

/-! ### Claim C8: fair value monotonicity and range -/

lemma fair_body (t l m : ℝ) :
    fair t l m = 100.0 * max 0.01 (min 0.99 (sigmoid
      (0.18 * (l * (1.0 / Real.sqrt (max t 0.0 / 60.0 + 1.0))) +
        0.20 * (HOME_ADV * (1.0 / Real.sqrt (max t 0.0 / 60.0 + 1.0))) +
        0.10 * (m * (1.0 + (1.0 - Real.tanh (max t 0.0 / 600.0))))))) := rfl

lemma scale_nonneg (t : ℝ) :
    0 ≤ 1.0 / Real.sqrt (max t 0.0 / 60.0 + 1.0) := by
  have hm0 : (0:ℝ) ≤ max t 0.0 := le_trans (by norm_num) (le_max_right t 0.0)
  have hsq : 0 < Real.sqrt (max t 0.0 / 60.0 + 1.0) :=
    Real.sqrt_pos.mpr (by nlinarith)
  exact le_of_lt (div_pos (by norm_num) hsq)

/-- C8: holding the other inputs fixed, the fair value is monotonically
non-decreasing in the score lead and in momentum, and for every game state it
lies strictly between 0 and 100. -/
theorem C8_fair_monotone_bounded :
    (∀ t m l1 l2, l1 ≤ l2 → fair t l1 m ≤ fair t l2 m) ∧
    (∀ t l m1 m2, m1 ≤ m2 → fair t l m1 ≤ fair t l m2) ∧
    (∀ t l m, 0 < fair t l m ∧ fair t l m < 100) := by
  refine ⟨?_, ?_, ?_⟩
  · intro t m l1 l2 h
    rw [fair_body, fair_body]
    refine mul_le_mul_of_nonneg_left
      (max_le_max le_rfl (min_le_min le_rfl (sigmoid_mono ?_)))
      (by norm_num)
    nlinarith [mul_nonneg (sub_nonneg.mpr h) (scale_nonneg t)]
  · intro t l m1 m2 h
    rw [fair_body, fair_body]
    have hmf : (0:ℝ) ≤ 1.0 + (1.0 - Real.tanh (max t 0.0 / 600.0)) := by
      nlinarith [tanh_lt_one (max t 0.0 / 600.0)]
    refine mul_le_mul_of_nonneg_left
      (max_le_max le_rfl (min_le_min le_rfl (sigmoid_mono ?_)))
      (by norm_num)
    nlinarith [mul_nonneg (sub_nonneg.mpr h) hmf]
  · intro t l m
    rw [fair_body]
    constructor
    · refine lt_of_lt_of_le (by norm_num : (0:ℝ) < 100.0 * 0.01)
        (mul_le_mul_of_nonneg_left (le_max_left _ _) (by norm_num))
    · refine lt_of_le_of_lt
        (mul_le_mul_of_nonneg_left (max_le (by norm_num) (min_le_left _ _))
          (by norm_num))
        (by norm_num)

/-- C8 (witness): monotonicity instances at concrete inputs — lead 0 vs 1 and
momentum −1 vs 2 at clock 600. -/
theorem C8_fair_monotone_bounded_witness :
    ((0.0 : ℝ) ≤ 1.0 ∧ fair 600.0 0.0 3.0 ≤ fair 600.0 1.0 3.0) ∧
      ((-1.0 : ℝ) ≤ 2.0 ∧ fair 600.0 4.0 (-1.0) ≤ fair 600.0 4.0 2.0) :=
  ⟨⟨by norm_num, C8_fair_monotone_bounded.1 600.0 3.0 0.0 1.0 (by norm_num)⟩,
    ⟨by norm_num, C8_fair_monotone_bounded.2.1 600.0 4.0 (-1.0) 2.0 (by norm_num)⟩⟩

/-! ### Claim C9: edge threshold schedule -/

/-- C9: the edge threshold is monotonically non-increasing as remaining time
decreases (non-decreasing in t), never falls below 0.2, and — being the base
threshold 0.9 tightened by up to 55% through the tanh schedule — always lies
in [0.405, 0.9). -/
theorem C9_threshold :
    (∀ t1 t2, t1 ≤ t2 → edgeThreshold t1 ≤ edgeThreshold t2) ∧
    (∀ t, 0.2 ≤ edgeThreshold t) ∧
    (∀ t, 0.405 ≤ edgeThreshold t ∧ edgeThreshold t < 0.9) := by
  refine ⟨?_, fun t => le_max_left _ _, ?_⟩
  · intro t1 t2 h
    unfold edgeThreshold BASE_EDGE
    apply max_le_max le_rfl
    have hm : max t1 0.0 / 600.0 ≤ max t2 0.0 / 600.0 :=
      div_le_div_of_nonneg_right (max_le_max h le_rfl) (by norm_num)
    have ht := tanh_mono hm
    nlinarith
  · intro t
    have h0 : (0:ℝ) ≤ max t 0.0 / 600.0 :=
      div_nonneg (le_trans (by norm_num) (le_max_right t 0.0)) (by norm_num)
    have h1 := tanh_nonneg h0
    have h2 := tanh_lt_one (max t 0.0 / 600.0)
    unfold edgeThreshold BASE_EDGE
    constructor
    · refine le_trans ?_ (le_max_right _ _)
      nlinarith
    · apply max_lt (by norm_num)
      nlinarith

/-- C9 (witness): the monotonicity instance at clocks 0 and 600. -/
theorem C9_threshold_witness :
    (0.0 : ℝ) ≤ 600.0 ∧ edgeThreshold 0.0 ≤ edgeThreshold 600.0 :=
  ⟨by norm_num, C9_threshold.1 0.0 600.0 (by norm_num)⟩

/-! ### Claim C10: idempotent flatten and END_GAME reset -/

/-- C10: `_flatten_all` issues no market order when the position magnitude is
below one unit; consequently a second END_GAME event processed on a freshly
reset state emits no commands at all and returns exactly the reset state
(capital 100000, position 0, empty book, remaining time `GAME_LEN2` = 2880,
momentum 0). -/
theorem C10_flatten_idempotent :
    (∀ s : State, |s.pos| < 1.0 →
      ∀ side q, Cmd.placeMarket side q ∉ (flattenAll s).2) ∧
    (∀ start hs as st ts now oid,
      onGameEventUpdate (resetState start) "END_GAME" hs as st ts now oid =
        (resetState now, [])) := by
  constructor
  · intro s hdust side q hmem
    unfold flattenAll at hmem
    rw [if_neg (by linarith)] at hmem
    obtain ⟨i, hi⟩ := cancelWorking_cmds s _ hmem
    exact Cmd.noConfusion hi
  · intro start hs as st ts now oid
    unfold onGameEventUpdate
    rw [if_pos rfl]
    refine congrArg _ ?_
    have hpos : (updGame (resetState start) hs as ts).pos = 0.0 :=
      (updGame_fields _ _ _ _).1
    have hwb : (updGame (resetState start) hs as ts).workBid = none :=
      (updGame_fields _ _ _ _).2.2.2.2.1
    have hwa : (updGame (resetState start) hs as ts).workAsk = none :=
      (updGame_fields _ _ _ _).2.2.2.2.2.1
    unfold flattenAll
    rw [if_neg (by rw [hpos]; norm_num)]
    unfold cancelWorking
    rw [hwb, hwa]

/-- C10 (witness): at `wState` (position 0.5), flatten-all emits no market
order. -/
theorem C10_flatten_idempotent_witness :
    |wState.pos| < 1.0 ∧
      Cmd.placeMarket Side.BUY 1.0 ∉ (flattenAll wState).2 := by
  have h : |wState.pos| < 1.0 := by norm_num [wState, abs_lt]
  exact ⟨h, C10_flatten_idempotent.1 wState h Side.BUY 1.0⟩

end Strategy
